import Mathlib

/-!
Verification of the category-hierarchy and tagging engine of
`src/backend/data_store.py` (functions `get_ancestor_ids`,
`expand_category_ids`, `get_descendant_ids`, `toggle_category_association`,
`filter_items`, `validate_item_name`, `batch_add_tags`, `batch_edit`,
`batch_delete`, `remove_category_from_item`, `batch_remove_categories`).

Modelling conventions:
* Python dicts become structures holding exactly the fields the engine reads;
  optional fields (`parentId`, `content`, `fileName`, `description`) become
  `Option String`, with `none` standing for both an absent key and `None`.
* Python's truthiness tests on strings (`if not category.get('parentId')`,
  `if exclude_id`, …) are rendered as the explicit checks `= none` / `= ""`.
* Python materialises some category-id collections as `set(...)` and returns
  `list(...)` in unspecified hash order.  The embedding realises the same
  sets as lists in a fixed order (original order first, additions appended,
  removals by `filter`); every theorem about such a result is stated at the
  level of membership / `List.toFinset`, never at the level of element order.
* The two hierarchy walks of the source (`while True:` in `get_ancestor_ids`,
  bare recursion in `get_descendant_ids`) need not terminate on a category
  list whose parent links form a cycle.  They are therefore embedded first as
  fuel-indexed step functions (`ancestorTail`, `descendantsFuel`) where
  `none` means "the walk has not finished within `fuel` iterations"; the
  total wrappers run them with fuel `categories.length + 1`, which is enough
  for every input on which the Python walk terminates at all.
-/

namespace TagStore

/-- A category record: the fields of the source's category dicts that the
engine reads (`id`, `parentId`).  The display-only fields `name` and
`createdAt` are never consulted by the functions under verification and are
omitted. -/
structure Category where
  id : String
  parentId : Option String
deriving Repr, DecidableEq

/-- An item record: the fields of the source's item dicts that the engine
reads. -/
structure Item where
  id : String
  type : String
  content : Option String
  fileName : Option String
  description : Option String
  categoryIds : List String
deriving Repr, DecidableEq

/-- One upward step sequence of `get_ancestor_ids`' `while True:` loop,
indexed by fuel.  `some tail` means the loop broke (missing category, or a
`parentId` that is `None`/`""`, i.e. falsy) after appending exactly the ids
in `tail`; `none` means the loop has not broken within `fuel` iterations.
The source appends `category['parentId']` and moves `current_id` there each
iteration, so the appended tail is independent of the accumulator. -/
def ancestorTail (categories : List Category) : Nat → String → Option (List String)
  | 0, _ => none
  | fuel + 1, currentId =>
    match categories.find? (fun c => c.id = currentId) with
    | none => some []
    | some c =>
      match c.parentId with
      | none => some []
      | some p =>
        if p = "" then some []
        else
          match ancestorTail categories fuel p with
          | none => none
          | some t => some (p :: t)

/-- `get_ancestor_ids(category_id, categories)`: the id itself followed by the
parent chain.  Runs the loop with fuel `categories.length + 1`; on an acyclic
list the Python loop breaks within that many iterations (each step consumes a
distinct category of the list), so the default branch is never taken there. -/
def get_ancestor_ids (categoryId : String) (categories : List Category) : List String :=
  categoryId :: (ancestorTail categories (categories.length + 1) categoryId).getD []

/-- `expand_category_ids(category_ids, categories)`: Python unions
`get_ancestor_ids` over the input into a `set` and returns `list(...)`.
The embedding concatenates the chains; the represented set is identical. -/
def expand_category_ids (categoryIds : List String) (categories : List Category) : List String :=
  categoryIds.flatMap (fun catId => get_ancestor_ids catId categories)

/-- The recursion of `get_descendant_ids`, indexed by fuel: at each level the
children (categories whose `parentId` equals the root id) are listed, then
each child's own descendants are appended in order.  `none` means the
recursion has not bottomed out within depth `fuel`. -/
def descendantsFuel (categories : List Category) : Nat → String → Option (List String)
  | 0, _ => none
  | fuel + 1, rootId =>
    let children := categories.filter (fun c => c.parentId = some rootId)
    children.foldl
      (fun acc child =>
        match acc, descendantsFuel categories fuel child.id with
        | some ids, some childIds => some (ids ++ childIds)
        | _, _ => none)
      (some (children.map (fun c => c.id)))

/-- `get_descendant_ids(root_id, categories)`: all ids strictly below
`root_id`.  Runs the recursion with fuel `categories.length + 1`; on an
acyclic list the recursion depth is bounded by the number of categories, so
the default branch is never taken there. -/
def get_descendant_ids (rootId : String) (categories : List Category) : List String :=
  (descendantsFuel categories (categories.length + 1) rootId).getD []

/-- Acyclicity of the category list, rendered computably: every ancestor walk
and every descendant walk started at a listed id completes within
`categories.length + 1` steps.  On a well-formed acyclic list (spec §3: ids
unique, the parent graph acyclic) both walks visit distinct categories and so
finish within that fuel; on a list with a reachable parent cycle the
corresponding Python walk never terminates and this predicate is `false`. -/
def acyclicWalks (categories : List Category) : Bool :=
  categories.all (fun c => (ancestorTail categories (categories.length + 1) c.id).isSome)
    && categories.all (fun c => (descendantsFuel categories (categories.length + 1) c.id).isSome)

/-- The `all(...)` of `toggle_category_association` step 1: every selected
item already holds `category_id`. -/
def allHaveB (items : List Item) (itemIds : List String) (categoryId : String) : Bool :=
  (items.filter (fun item => decide (item.id ∈ itemIds))).all
    (fun item => decide (categoryId ∈ item.categoryIds))

/-- The loop body of `toggle_category_association` step 3: a selected item's
`categoryIds` set either loses `categoriesToRemove` or gains
`categoriesToAdd`; an unselected item passes through unchanged. -/
def toggleItemUpdate (allHaveCategory : Bool) (categoriesToRemove categoriesToAdd : List String)
    (itemIds : List String) (item : Item) : Item :=
  if item.id ∈ itemIds then
    { item with categoryIds :=
        if allHaveCategory then
          item.categoryIds.filter (fun cid => decide (cid ∉ categoriesToRemove))
        else
          item.categoryIds ++ categoriesToAdd.filter (fun cid => decide (cid ∉ item.categoryIds)) }
  else item

/-- `toggle_category_association(items, item_ids, category_id, categories)`.
Step 1 decides once, over the whole selection, whether every selected item
already has the category; step 2 picks the id set to remove
(`set([category_id] + descendants)`, which equals `set([category_id])` when
there are no descendants, so the source's two remove branches coincide with
`categoryId :: descendants`) or to add (`[category_id]` if there are
descendants, else the full ancestor chain); step 3 rewrites each selected
item's `categoryIds` set. -/
def toggle_category_association (items : List Item) (itemIds : List String)
    (categoryId : String) (categories : List Category) : List Item :=
  let allHaveCategory := allHaveB items itemIds categoryId
  let descendants := get_descendant_ids categoryId categories
  let categoriesToRemove := categoryId :: descendants
  let categoriesToAdd :=
    if descendants.isEmpty then get_ancestor_ids categoryId categories else [categoryId]
  items.map (toggleItemUpdate allHaveCategory categoriesToRemove categoriesToAdd itemIds)

/-- Substring occurrence on character lists: the needle occurs in the
haystack.  Mirrors Python's `haystack.find(needle) != -1`. -/
def charsContain (needle : List Char) : List Char → Bool
  | [] => needle.isEmpty
  | h :: t => needle.isPrefixOf (h :: t) || charsContain needle t

/-- `haystack.find(needle) != -1` for strings. -/
def strContainsSub (haystack needle : String) : Bool :=
  charsContain needle.data haystack.data

/-- The per-filter-id test of `filter_items` step 1: for every selected
filter id, some of the item's own category ids lies in
`set([filter_id] + get_descendant_ids(filter_id, categories))`. -/
def matches_all_filters (categories : List Category) (selectedCategoryIds : List String)
    (itemCategoryIds : List String) : Bool :=
  selectedCategoryIds.all (fun filterId =>
    itemCategoryIds.any (fun cid =>
      decide (cid ∈ filterId :: get_descendant_ids filterId categories)))

/-- Step 1 of `filter_items`: the loop that skips items with an empty
`categoryIds` (`continue`) and keeps those matching all selected filters. -/
def filter_by_categories (categories : List Category) (selectedCategoryIds : List String) :
    List Item → List Item
  | [] => []
  | item :: rest =>
    if item.categoryIds.isEmpty then
      filter_by_categories categories selectedCategoryIds rest
    else if matches_all_filters categories selectedCategoryIds item.categoryIds then
      item :: filter_by_categories categories selectedCategoryIds rest
    else
      filter_by_categories categories selectedCategoryIds rest

/-- The per-item test of `filter_items` step 2, with `query` already
lower-cased: substring match against the description, the file name, and —
only for the `text`/`url` types — the content.  `item.get(...) or ''`
turns an absent value into `""`. -/
def matches_search (query : String) (item : Item) : Bool :=
  let matchesDesc := strContainsSub (item.description.getD "").toLower query
  let matchesFilename := strContainsSub (item.fileName.getD "").toLower query
  let matchesContent :=
    if item.type = "text" ∨ item.type = "url" then
      strContainsSub (item.content.getD "").toLower query
    else false
  matchesDesc || matchesFilename || matchesContent

/-- Step 2 of `filter_items`: keep the items matching the search query. -/
def filter_by_search (query : String) : List Item → List Item
  | [] => []
  | item :: rest =>
    if matches_search query item then item :: filter_by_search query rest
    else filter_by_search query rest

/-- `filter_items(items, categories, selected_category_ids, search_query)`.
The category stage runs when `selected_category_ids` is truthy and non-empty
(`None` and `[]` behave identically, so the parameter is a plain list); the
search stage runs when `search_query` is truthy with a non-blank strip, and
matches against `search_query.lower()` (the un-stripped text). -/
def filter_items (items : List Item) (categories : List Category)
    (selectedCategoryIds : List String) (searchQuery : Option String) : List Item :=
  let result := items
  let result :=
    if selectedCategoryIds.isEmpty then result
    else filter_by_categories categories selectedCategoryIds result
  match searchQuery with
  | none => result
  | some q => if q.trim = "" then result else filter_by_search q.toLower result

/-- The skip test of `validate_item_name`'s loop:
`if exclude_id and item.get('id') == exclude_id` (an empty exclude id is
falsy and skips nothing). -/
def is_excluded (excludeId : Option String) (item : Item) : Bool :=
  match excludeId with
  | none => false
  | some e => decide (e ≠ "") && decide (item.id = e)

/-- The scan loop of `validate_item_name`: first collision wins.  For the
`text`/`url` types the collision is on `content` against any `text`/`url`
item; for every other type it is on `fileName` against the same type. -/
def validate_scan (itemName itemType : String) (excludeId : Option String) :
    List Item → Option String
  | [] => none
  | item :: rest =>
    if is_excluded excludeId item then
      validate_scan itemName itemType excludeId rest
    else if itemType = "text" ∨ itemType = "url" then
      if (item.type = "text" ∨ item.type = "url") ∧ item.content = some itemName then
        some ("已存在同名条目：" ++ itemName ++ "，请修改名称。")
      else validate_scan itemName itemType excludeId rest
    else
      if item.type = itemType ∧ item.fileName = some itemName then
        some ("已存在同名文件：" ++ itemName ++ "，请修改文件名或选择其他文件。")
      else validate_scan itemName itemType excludeId rest

/-- The blank-name test `not item_name or not item_name.strip()`: the name is
empty or whitespace only, i.e. every character is whitespace. -/
def isBlankName (s : String) : Bool :=
  s.data.all (fun c => c.isWhitespace)

/-- `validate_item_name(items, item_name, item_type, exclude_id)`:
a blank name (`not item_name or not item_name.strip()`) is rejected
outright, otherwise the items are scanned for a duplicate. -/
def validate_item_name (items : List Item) (itemName itemType : String)
    (excludeId : Option String) : Option String :=
  if isBlankName itemName then some "名称不能为空"
  else validate_scan itemName itemType excludeId items

/-- `batch_add_tags(items, item_ids, category_id, categories)`: each selected
item's `categoryIds` set is unioned with the category id expanded by its
ancestors (when a truthy category list is supplied). -/
def batch_add_tags (items : List Item) (itemIds : List String) (categoryId : String)
    (categories : List Category) : List Item :=
  let categoryIdsToAdd :=
    if categories.isEmpty then [categoryId]
    else expand_category_ids [categoryId] categories
  items.map (fun item =>
    if item.id ∈ itemIds then
      { item with categoryIds :=
          item.categoryIds ++ categoryIdsToAdd.filter (fun cid => decide (cid ∉ item.categoryIds)) }
    else item)

/-- `batch_edit(items, item_ids, description, category_id)`: overwrite the
description when a non-blank one is supplied, and append the category id when
supplied (truthy) and not already present. -/
def batch_edit (items : List Item) (itemIds : List String)
    (description : Option String) (categoryId : Option String) : List Item :=
  items.map (fun item =>
    if item.id ∈ itemIds then
      let item1 :=
        match description with
        | none => item
        | some d => if d.trim = "" then item else { item with description := some d }
      match categoryId with
      | none => item1
      | some c =>
        if c ≠ "" ∧ c ∉ item.categoryIds then
          { item1 with categoryIds := item.categoryIds ++ [c] }
        else item1
    else item)

/-- `batch_delete(items, item_ids)`. -/
def batch_delete (items : List Item) (itemIds : List String) : List Item :=
  items.filter (fun item => decide (item.id ∉ itemIds))

/-- The loop of `remove_category_from_item`: processed left to right, the
first error aborts the whole call; otherwise the rewritten list is built and
the flag records whether any item matched. -/
def rcfi_loop (itemId categoryId : String) : List Item → Except String (List Item × Bool)
  | [] => .ok ([], false)
  | item :: rest =>
    if item.id = itemId then
      if categoryId ∉ item.categoryIds then
        .error ("条目不包含分类ID: " ++ categoryId)
      else
        let newCategoryIds := item.categoryIds.filter (fun cid => decide (cid ≠ categoryId))
        if newCategoryIds = [] then
          .error "条目至少需要一个分类，无法删除最后一个分类"
        else
          match rcfi_loop itemId categoryId rest with
          | .ok (tail, _) => .ok ({ item with categoryIds := newCategoryIds } :: tail, true)
          | .error m => .error m
    else
      match rcfi_loop itemId categoryId rest with
      | .ok (tail, itemFound) => .ok (item :: tail, itemFound)
      | .error m => .error m

/-- `remove_category_from_item(items, item_id, category_id)`: every error
path returns the original items alongside the message; a completed scan that
found no item reports that the item does not exist. -/
def remove_category_from_item (items : List Item) (itemId categoryId : String) :
    List Item × Option String :=
  match rcfi_loop itemId categoryId items with
  | .error m => (items, some m)
  | .ok (updatedItems, itemFound) =>
    if itemFound then (updatedItems, none)
    else (items, some ("条目不存在: " ++ itemId))

/-- The loop of `batch_remove_categories`: per selected item the targeted
category ids are filtered out; an item that would end with zero categories is
kept unmodified; the count records the items whose category list actually
shrank. -/
def brc_loop (categoriesToRemove : List String) (itemIds : List String) :
    List Item → List Item × Nat
  | [] => ([], 0)
  | item :: rest =>
    let run := brc_loop categoriesToRemove itemIds rest
    if item.id ∈ itemIds then
      let newCategoryIds :=
        item.categoryIds.filter (fun cid => decide (cid ∉ categoriesToRemove))
      if newCategoryIds = [] then (item :: run.1, run.2)
      else
        ({ item with categoryIds := newCategoryIds } :: run.1,
         if newCategoryIds.length ≠ item.categoryIds.length then run.2 + 1 else run.2)
    else (item :: run.1, run.2)

/-- `batch_remove_categories(items, item_ids, category_ids)`: empty inputs
fail up front with the original items; a run that modified nothing fails with
the original items; otherwise the rewritten list is returned. -/
def batch_remove_categories (items : List Item) (itemIds : List String)
    (categoryIds : List String) : List Item × Option String :=
  if itemIds = [] then (items, some "未提供条目ID")
  else if categoryIds = [] then (items, some "未提供分类ID")
  else
    let run := brc_loop categoryIds itemIds items
    if run.2 = 0 then
      (items, some "没有条目被修改，可能是分类不存在或所有条目都只有一个分类")
    else (run.1, none)

/-- The item rewrite a selected item undergoes in the batch-remove loop
(unmodified when the strip would empty it). -/
def brcItemUpdate (categoriesToRemove itemIds : List String) (item : Item) : Item :=
  if item.id ∈ itemIds then
    (if item.categoryIds.filter (fun cid => decide (cid ∉ categoriesToRemove)) = [] then item
     else
      { item with categoryIds :=
          item.categoryIds.filter (fun cid => decide (cid ∉ categoriesToRemove)) })
  else item

/-- Whether the batch-remove loop counts an item as modified: selected, not
emptied, and its category list actually shrank. -/
def brcModified (categoriesToRemove itemIds : List String) (item : Item) : Bool :=
  decide (item.id ∈ itemIds) &&
    decide (item.categoryIds.filter (fun cid => decide (cid ∉ categoriesToRemove)) ≠ []) &&
    decide ((item.categoryIds.filter
      (fun cid => decide (cid ∉ categoriesToRemove))).length ≠ item.categoryIds.length)

/-- The collision condition of `validate_item_name`'s scan, per item: for the
`text`/`url` types, identical `content` against any `text`/`url` item; for
every other type, identical `fileName` against the same type. -/
def name_collides (itemType itemName : String) (item : Item) : Prop :=
  if itemType = "text" ∨ itemType = "url" then
    (item.type = "text" ∨ item.type = "url") ∧ item.content = some itemName
  else item.type = itemType ∧ item.fileName = some itemName

instance (itemType itemName : String) (item : Item) :
    Decidable (name_collides itemType itemName item) := by
  unfold name_collides
  infer_instance

/-! ### Concrete inputs used by counterexamples and witnesses -/

/-- A two-element parent cycle: `a`'s parent is `b` and `b`'s parent is `a`. -/
def cycCats : List Category := [⟨"a", some "b"⟩, ⟨"b", some "a"⟩]

/-- The spec §8 tree: `A` a root, `B` below `A`, `C` below `B`. -/
def exCats : List Category := [⟨"A", none⟩, ⟨"B", some "A"⟩, ⟨"C", some "B"⟩]

/-- A two-category chain: `A` a root, `B` a leaf below `A`. -/
def leafCats : List Category := [⟨"A", none⟩, ⟨"B", some "A"⟩]

/-- A plain text item with the given id and category ids. -/
def exItem (i : String) (cids : List String) : Item :=
  ⟨i, "text", none, none, none, cids⟩

/-- The spec §8 duplicate-name scenario's existing file item. -/
def fileItem : Item := ⟨"i1", "file", none, some "report.pdf", none, ["c1"]⟩

/-! ### Helper lemmas -/

/-- The boolean "all selected items have the category" test as a proposition. -/
lemma allHaveB_iff {items : List Item} {itemIds : List String} {categoryId : String} :
    allHaveB items itemIds categoryId = true ↔
      ∀ it ∈ items, it.id ∈ itemIds → categoryId ∈ it.categoryIds := by
  simp only [allHaveB, List.all_eq_true, List.mem_filter, decide_eq_true_eq, and_imp]

/-- C2: refuted on the code — on the two-element parent cycle `a ↔ b` neither
the ancestor walk of `get_ancestor_ids` nor the descendant walk of
`get_descendant_ids` ever finishes: for every iteration budget the fuel-indexed
walks report "not finished yet".  The source has no visited guard, so the
Python `while True:` loop and the child recursion run forever, against the
claim (and spec §7) that the walks terminate after visiting each category at
most once. -/
theorem C2_cycle_walks_never_finish :
    ∀ fuel : Nat,
      ancestorTail cycCats fuel "a" = none ∧ ancestorTail cycCats fuel "b" = none ∧
      descendantsFuel cycCats fuel "a" = none ∧ descendantsFuel cycCats fuel "b" = none := by
  intro fuel
  induction fuel with
  | zero => exact ⟨rfl, rfl, rfl, rfl⟩
  | succ n ih =>
    obtain ⟨ha, hb, da, db⟩ := ih
    simp only [cycCats] at ha hb da db
    refine ⟨?_, ?_, ?_, ?_⟩
    · simp [ancestorTail, cycCats, hb]
    · simp [ancestorTail, cycCats, ha]
    · simp [descendantsFuel, cycCats, db]
    · simp [descendantsFuel, cycCats, da]

/-- The category stage keeps a subsequence of its input. -/
lemma filter_by_categories_sublist (categories : List Category)
    (selectedCategoryIds : List String) :
    ∀ items : List Item,
      (filter_by_categories categories selectedCategoryIds items).Sublist items := by
  intro items
  induction items with
  | nil => simp [filter_by_categories]
  | cons item rest ih =>
    by_cases h1 : item.categoryIds.isEmpty
    · simpa [filter_by_categories, h1] using ih.cons item
    · by_cases h2 : matches_all_filters categories selectedCategoryIds item.categoryIds
      · simpa [filter_by_categories, h1, h2] using ih.cons₂ item
      · simpa [filter_by_categories, h1, h2] using ih.cons item

/-- The search stage keeps a subsequence of its input. -/
lemma filter_by_search_sublist (query : String) :
    ∀ items : List Item, (filter_by_search query items).Sublist items := by
  intro items
  induction items with
  | nil => simp [filter_by_search]
  | cons item rest ih =>
    by_cases h : matches_search query item
    · simpa [filter_by_search, h] using ih.cons₂ item
    · simpa [filter_by_search, h] using ih.cons item

/-- C10: confirmed — for every input (category filter, text filter, either or
neither active) `filter_items` returns a subsequence of the input item list:
every returned item occurs in the input, nothing new appears, and the
relative input order is preserved. -/
theorem C10_filter_items_sublist (items : List Item) (categories : List Category)
    (selectedCategoryIds : List String) (searchQuery : Option String) :
    (filter_items items categories selectedCategoryIds searchQuery).Sublist items := by
  have stage1 :
      (if selectedCategoryIds.isEmpty then items
       else filter_by_categories categories selectedCategoryIds items).Sublist items := by
    by_cases h : selectedCategoryIds.isEmpty
    · simp [h]
    · simpa [h] using filter_by_categories_sublist categories selectedCategoryIds items
  unfold filter_items
  match searchQuery with
  | none => exact stage1
  | some q =>
    by_cases hq : q.trim = ""
    · simpa [hq] using stage1
    · simp only [hq, if_false]
      exact (filter_by_search_sublist q.toLower _).trans stage1

/-- The batch-remove loop rewrites items in place: the id sequence of its
item output equals the input's. -/
lemma brc_loop_fst_ids (categoriesToRemove itemIds : List String) :
    ∀ items : List Item,
      ((brc_loop categoriesToRemove itemIds items).1).map (fun it => it.id) =
        items.map (fun it => it.id) := by
  intro items
  induction items with
  | nil => rfl
  | cons item rest ih =>
    by_cases hsel : item.id ∈ itemIds
    · simp only [brc_loop, if_pos hsel]
      split
      · simp [ih]
      · simp [ih]
    · simp only [brc_loop, if_neg hsel]
      simp [ih]

/-- A completed scan of the remove-one-category loop rewrites items in place:
the id sequence of its output equals the input's. -/
lemma rcfi_loop_ok_ids (itemId categoryId : String) :
    ∀ (items tail : List Item) (found : Bool),
      rcfi_loop itemId categoryId items = .ok (tail, found) →
        tail.map (fun it => it.id) = items.map (fun it => it.id) := by
  intro items
  induction items with
  | nil => intro tail found h; cases h; rfl
  | cons item rest ih =>
    intro tail found h
    simp only [rcfi_loop] at h
    split at h
    · split at h
      · cases h
      · split at h
        · cases h
        · rcases hrec : rcfi_loop itemId categoryId rest with m | p
          · rw [hrec] at h; cases h
          · rw [hrec] at h
            cases h
            simp [ih p.1 p.2 hrec]
    · rcases hrec : rcfi_loop itemId categoryId rest with m | p
      · rw [hrec] at h; cases h
      · rw [hrec] at h
        cases h
        simp [ih p.1 p.2 hrec]

/-- C9: confirmed — every mutating engine operation except `batch_delete`
(`batch_add_tags`, `toggle_category_association`, `batch_edit`,
`batch_remove_categories`, `remove_category_from_item`) preserves the
sequence of item ids: the returned list has the same length and the item at
each position keeps its id, so these operations never create, delete or
reorder items. -/
theorem C9_mutations_preserve_item_ids (items : List Item) (itemIds : List String)
    (categoryId itemId : String) (categories : List Category)
    (description categoryOpt : Option String) (categoryIds : List String) :
    (batch_add_tags items itemIds categoryId categories).map (fun it => it.id) =
        items.map (fun it => it.id)
    ∧ (toggle_category_association items itemIds categoryId categories).map (fun it => it.id) =
        items.map (fun it => it.id)
    ∧ (batch_edit items itemIds description categoryOpt).map (fun it => it.id) =
        items.map (fun it => it.id)
    ∧ ((batch_remove_categories items itemIds categoryIds).1).map (fun it => it.id) =
        items.map (fun it => it.id)
    ∧ ((remove_category_from_item items itemId categoryId).1).map (fun it => it.id) =
        items.map (fun it => it.id) := by
  refine ⟨?_, ?_, ?_, ?_, ?_⟩
  · simp only [batch_add_tags, List.map_map]
    refine List.map_congr_left fun a _ => ?_
    by_cases h : a.id ∈ itemIds <;> simp [h]
  · simp only [toggle_category_association, List.map_map]
    refine List.map_congr_left fun a _ => ?_
    by_cases h : a.id ∈ itemIds <;> simp [toggleItemUpdate, h]
  · simp only [batch_edit, List.map_map]
    refine List.map_congr_left fun a _ => ?_
    by_cases h : a.id ∈ itemIds
    · rcases description with _ | d <;> rcases categoryOpt with _ | c <;>
        simp only [Function.comp_apply, if_pos h] <;> (try split) <;> (try split) <;> rfl
    · simp [h]
  · simp only [batch_remove_categories]
    split
    · rfl
    · split
      · rfl
      · split
        · rfl
        · exact brc_loop_fst_ids categoryIds itemIds items
  · simp only [remove_category_from_item]
    rcases hrec : rcfi_loop itemId categoryId items with m | ⟨tl, fd⟩
    · rfl
    · rcases fd with _ | _
      · rfl
      · exact rcfi_loop_ok_ids itemId categoryId items tl true hrec

/-- Membership in a set-difference realised by `filter`. -/
lemma mem_filter_not_mem {x : String} {l toRemove : List String} :
    x ∈ l.filter (fun cid => decide (cid ∉ toRemove)) ↔ x ∈ l ∧ x ∉ toRemove := by
  simp [List.mem_filter]

/-- Membership in a set-union realised by appending the genuinely new
elements. -/
lemma mem_append_new {x : String} {l toAdd : List String} :
    x ∈ l ++ toAdd.filter (fun cid => decide (cid ∉ l)) ↔ x ∈ l ∨ x ∈ toAdd := by
  simp only [List.mem_append, List.mem_filter, decide_eq_true_eq]
  constructor
  · rintro (h | ⟨h, _⟩)
    · exact Or.inl h
    · exact Or.inr h
  · rintro (h | h)
    · exact Or.inl h
    · by_cases hl : x ∈ l
      · exact Or.inl hl
      · exact Or.inr ⟨h, hl⟩

/-- `toggle_category_association` as an explicit map over the items, the
selection decision and the id sets exposed. -/
lemma toggle_eq_map (items : List Item) (itemIds : List String) (categoryId : String)
    (categories : List Category) :
    toggle_category_association items itemIds categoryId categories =
      items.map (toggleItemUpdate (allHaveB items itemIds categoryId)
        (categoryId :: get_descendant_ids categoryId categories)
        (if (get_descendant_ids categoryId categories).isEmpty then
          get_ancestor_ids categoryId categories
         else [categoryId]) itemIds) := rfl

/-- The toggle loop body never changes an item's id. -/
lemma toggleItemUpdate_id (b : Bool) (rm ad ids : List String) (item : Item) :
    (toggleItemUpdate b rm ad ids item).id = item.id := by
  by_cases h : item.id ∈ ids <;> simp [toggleItemUpdate, h]

/-- The toggle loop body leaves an unselected item untouched. -/
lemma toggleItemUpdate_not_selected (b : Bool) (rm ad ids : List String) (item : Item)
    (h : item.id ∉ ids) : toggleItemUpdate b rm ad ids item = item := by
  simp [toggleItemUpdate, h]

/-- Membership after the toggle loop body removes from a selected item. -/
lemma mem_toggleItemUpdate_remove (rm ad ids : List String) (item : Item) (x : String)
    (h : item.id ∈ ids) :
    x ∈ (toggleItemUpdate true rm ad ids item).categoryIds ↔
      x ∈ item.categoryIds ∧ x ∉ rm := by
  simp [toggleItemUpdate, h, List.mem_filter]

/-- Membership after the toggle loop body adds to a selected item. -/
lemma mem_toggleItemUpdate_add (rm ad ids : List String) (item : Item) (x : String)
    (h : item.id ∈ ids) :
    x ∈ (toggleItemUpdate false rm ad ids item).categoryIds ↔
      x ∈ item.categoryIds ∨ x ∈ ad := by
  simp only [toggleItemUpdate, if_pos h, Bool.false_eq_true, if_false]
  exact mem_append_new

/-- C1: confirmed — `toggle_category_association` makes one decision for the
whole selection: it removes iff every item whose id is in `itemIds` already
contains the category.  Removing strips the category and (when it has any)
all its descendants, leaving ancestors intact; adding inserts only the
category when it has descendants, and the category with its full ancestor
chain when it is a leaf.  Items outside the selection are returned unchanged,
and the output pairs up with the input position by position. -/
theorem C1_toggle_characterization (items : List Item) (itemIds : List String)
    (categoryId : String) (categories : List Category)
    (hacyc : acyclicWalks categories = true) :
    List.Forall₂ (fun res orig =>
      (orig.id ∉ itemIds → res = orig) ∧
      (orig.id ∈ itemIds → res.id = orig.id ∧
        ((∀ it ∈ items, it.id ∈ itemIds → categoryId ∈ it.categoryIds) →
          ((get_descendant_ids categoryId categories ≠ [] →
             ∀ x, x ∈ res.categoryIds ↔
               x ∈ orig.categoryIds ∧ x ≠ categoryId ∧
                 x ∉ get_descendant_ids categoryId categories) ∧
           (get_descendant_ids categoryId categories = [] →
             ∀ x, x ∈ res.categoryIds ↔ x ∈ orig.categoryIds ∧ x ≠ categoryId))) ∧
        ((¬ ∀ it ∈ items, it.id ∈ itemIds → categoryId ∈ it.categoryIds) →
          ((get_descendant_ids categoryId categories ≠ [] →
             ∀ x, x ∈ res.categoryIds ↔ x ∈ orig.categoryIds ∨ x = categoryId) ∧
           (get_descendant_ids categoryId categories = [] →
             ∀ x, x ∈ res.categoryIds ↔
               x ∈ orig.categoryIds ∨ x ∈ get_ancestor_ids categoryId categories)))))
      (toggle_category_association items itemIds categoryId categories) items := by
  rw [toggle_eq_map, List.forall₂_map_left_iff, List.forall₂_same]
  intro a ha
  constructor
  · intro hns
    exact toggleItemUpdate_not_selected _ _ _ _ a hns
  · intro hsel
    refine ⟨toggleItemUpdate_id _ _ _ _ a, ?_, ?_⟩
    · intro hall
      have hb : allHaveB items itemIds categoryId = true := allHaveB_iff.mpr hall
      rw [hb]
      constructor
      · intro _ x
        rw [mem_toggleItemUpdate_remove _ _ _ a x hsel]
        simp only [List.mem_cons, not_or]
      · intro hD x
        rw [mem_toggleItemUpdate_remove _ _ _ a x hsel]
        simp only [hD, List.mem_cons, List.not_mem_nil, or_false]
    · intro hnall
      have hb : allHaveB items itemIds categoryId = false := by
        cases hEq : allHaveB items itemIds categoryId with
        | false => rfl
        | true => exact absurd (allHaveB_iff.mp hEq) hnall
      rw [hb]
      constructor
      · intro hD x
        have hDe : (get_descendant_ids categoryId categories).isEmpty = false := by
          simpa [List.isEmpty_iff] using hD
        rw [hDe]
        simp only [Bool.false_eq_true, if_false]
        rw [mem_toggleItemUpdate_add _ _ _ a x hsel]
        simp only [List.mem_singleton]
      · intro hD x
        have hDe : (get_descendant_ids categoryId categories).isEmpty = true := by
          simp [List.isEmpty_iff, hD]
        rw [hDe]
        simp only [eq_self_iff_true, if_true]
        rw [mem_toggleItemUpdate_add _ _ _ a x hsel]

/-- C1 witness: the theorem applied to the spec §8 tree `A → B → C`, an item
tagged `[A]` and the selection toggling the leaf `C` (acyclicity discharged
by evaluation). -/
theorem C1_toggle_characterization_witness :
    List.Forall₂ (fun res orig =>
      (orig.id ∉ ["I2"] → res = orig) ∧
      (orig.id ∈ ["I2"] → res.id = orig.id ∧
        ((∀ it ∈ [exItem "I2" ["A"]], it.id ∈ ["I2"] → "C" ∈ it.categoryIds) →
          ((get_descendant_ids "C" exCats ≠ [] →
             ∀ x, x ∈ res.categoryIds ↔
               x ∈ orig.categoryIds ∧ x ≠ "C" ∧ x ∉ get_descendant_ids "C" exCats) ∧
           (get_descendant_ids "C" exCats = [] →
             ∀ x, x ∈ res.categoryIds ↔ x ∈ orig.categoryIds ∧ x ≠ "C"))) ∧
        ((¬ ∀ it ∈ [exItem "I2" ["A"]], it.id ∈ ["I2"] → "C" ∈ it.categoryIds) →
          ((get_descendant_ids "C" exCats ≠ [] →
             ∀ x, x ∈ res.categoryIds ↔ x ∈ orig.categoryIds ∨ x = "C") ∧
           (get_descendant_ids "C" exCats = [] →
             ∀ x, x ∈ res.categoryIds ↔
               x ∈ orig.categoryIds ∨ x ∈ get_ancestor_ids "C" exCats)))))
      (toggle_category_association [exItem "I2" ["A"]] ["I2"] "C" exCats)
      [exItem "I2" ["A"]] :=
  C1_toggle_characterization [exItem "I2" ["A"]] ["I2"] "C" exCats (by decide)

/-- A category id heads its own ancestor chain. -/
lemma self_mem_get_ancestor_ids (categoryId : String) (categories : List Category) :
    categoryId ∈ get_ancestor_ids categoryId categories := by
  rw [get_ancestor_ids]
  exact List.mem_cons_self _ _

/-- C3 counterexample: with the acyclic tree `A → B` (so `B` is a leaf, no
descendants) and the single selected item tagged exactly `["B"]`, toggling
`B` twice yields the category set `{B, A}`, not the original `{B}`: the
round-trip law fails for a childless category, against the claim that it can
only fail when the category has children. -/
theorem C3_roundtrip_counterexample :
    acyclicWalks leafCats = true ∧
    get_descendant_ids "B" leafCats = [] ∧
    ((toggle_category_association
        (toggle_category_association [exItem "I1" ["B"]] ["I1"] "B" leafCats)
        ["I1"] "B" leafCats).map (fun it => it.categoryIds)) = [["B", "A"]] ∧
    ("A" ∈ (["B", "A"] : List String) ∧ "A" ∉ (exItem "I1" ["B"]).categoryIds) := by
  decide

/-- C3 amended: double toggling with the same selection and category restores
every selected item's `categoryIds` set when the category is a leaf (no
descendants), every selected item already holds all proper ancestors of the
category, and the selection is uniform in the category (all selected items
hold it, or none does).  Beyond the original claim's exception for a category
with children, the restore can also fail for a leaf whose re-added ancestor
chain contains ids a selected item lacked, or when only part of the selection
held the category. -/
theorem C3_roundtrip_leaf_amended (items : List Item) (itemIds : List String)
    (categoryId : String) (categories : List Category)
    (hacyc : acyclicWalks categories = true)
    (hleaf : get_descendant_ids categoryId categories = [])
    (hanc : ∀ it ∈ items, it.id ∈ itemIds →
      ∀ a ∈ get_ancestor_ids categoryId categories, a ≠ categoryId → a ∈ it.categoryIds)
    (hpol : (∀ it ∈ items, it.id ∈ itemIds → categoryId ∈ it.categoryIds) ∨
            (∀ it ∈ items, it.id ∈ itemIds → categoryId ∉ it.categoryIds)) :
    List.Forall₂ (fun res orig => res.id = orig.id ∧
        ∀ x, x ∈ res.categoryIds ↔ x ∈ orig.categoryIds)
      (toggle_category_association
        (toggle_category_association items itemIds categoryId categories)
        itemIds categoryId categories) items := by
  have hAncHead := self_mem_get_ancestor_ids categoryId categories
  rw [toggle_eq_map, toggle_eq_map, hleaf, List.map_map]
  simp only [List.isEmpty_nil, if_true]
  set f1 := toggleItemUpdate (allHaveB items itemIds categoryId) [categoryId]
    (get_ancestor_ids categoryId categories) itemIds with hf1
  set f2 := toggleItemUpdate (allHaveB (items.map f1) itemIds categoryId) [categoryId]
    (get_ancestor_ids categoryId categories) itemIds with hf2
  rw [List.forall₂_map_left_iff, List.forall₂_same]
  intro a ha
  simp only [Function.comp_apply]
  by_cases hsel : a.id ∈ itemIds
  · constructor
    · rw [hf2, hf1]
      exact (toggleItemUpdate_id _ _ _ _ _).trans (toggleItemUpdate_id _ _ _ _ a)
    · intro x
      rcases hpol with hall | hnone
      · -- every selected item holds the category: remove, then add back
        have hb1 : allHaveB items itemIds categoryId = true := allHaveB_iff.mpr hall
        have hb2 : allHaveB (items.map f1) itemIds categoryId = false := by
          cases hcase : allHaveB (items.map f1) itemIds categoryId with
          | false => rfl
          | true =>
            exfalso
            have hc := allHaveB_iff.mp hcase (f1 a) (List.mem_map_of_mem f1 ha)
              (by rw [hf1, toggleItemUpdate_id]; exact hsel)
            rw [hf1, hb1, mem_toggleItemUpdate_remove _ _ _ a _ hsel] at hc
            exact hc.2 (List.mem_cons_self _ _)
        rw [hf2, hb2, hf1, hb1]
        rw [mem_toggleItemUpdate_add _ _ _ _ x (by rw [toggleItemUpdate_id]; exact hsel)]
        rw [mem_toggleItemUpdate_remove _ _ _ a x hsel]
        constructor
        · rintro (⟨hx, _⟩ | hxAnc)
          · exact hx
          · by_cases hxc : x = categoryId
            · subst hxc; exact hall a ha hsel
            · exact hanc a ha hsel x hxAnc hxc
        · intro hx
          by_cases hxc : x = categoryId
          · subst hxc; exact Or.inr hAncHead
          · exact Or.inl ⟨hx, by simp [hxc]⟩
      · -- no selected item holds the category: add, then remove
        have hb1 : allHaveB items itemIds categoryId = false := by
          cases hcase : allHaveB items itemIds categoryId with
          | false => rfl
          | true => exact absurd (allHaveB_iff.mp hcase a ha hsel) (hnone a ha hsel)
        have hb2 : allHaveB (items.map f1) itemIds categoryId = true := by
          refine allHaveB_iff.mpr ?_
          intro it' hmem hsel'
          obtain ⟨b, hb, rfl⟩ := List.mem_map.mp hmem
          rw [hf1, toggleItemUpdate_id] at hsel'
          rw [hf1, hb1, mem_toggleItemUpdate_add _ _ _ b _ hsel']
          exact Or.inr hAncHead
        rw [hf2, hb2, hf1, hb1]
        rw [mem_toggleItemUpdate_remove _ _ _ _ x (by rw [toggleItemUpdate_id]; exact hsel)]
        rw [mem_toggleItemUpdate_add _ _ _ a x hsel]
        constructor
        · rintro ⟨hx | hxAnc, hnc⟩
          · exact hx
          · exact hanc a ha hsel x hxAnc (fun h => hnc (by simp [h]))
        · intro hx
          refine ⟨Or.inl hx, fun hmem => ?_⟩
          have hxc : x = categoryId := by simpa using hmem
          exact hnone a ha hsel (hxc ▸ hx)
  · have h1 : f1 a = a := by
      rw [hf1]; exact toggleItemUpdate_not_selected _ _ _ _ a hsel
    have h2 : f2 a = a := by
      rw [hf2]; exact toggleItemUpdate_not_selected _ _ _ _ a hsel
    rw [h1, h2]
    exact ⟨rfl, fun x => Iff.rfl⟩

/-- C3 witness for the amended law: the uniform leaf round trip on the tree
`A → B`, one selected item tagged `["B", "A"]` (it holds the leaf and its
proper ancestor), toggling `B` twice (all hypotheses discharged by
evaluation). -/
theorem C3_roundtrip_leaf_amended_witness :
    List.Forall₂ (fun res orig => res.id = orig.id ∧
        ∀ x, x ∈ res.categoryIds ↔ x ∈ orig.categoryIds)
      (toggle_category_association
        (toggle_category_association [exItem "I1" ["B", "A"]] ["I1"] "B" leafCats)
        ["I1"] "B" leafCats) [exItem "I1" ["B", "A"]] :=
  C3_roundtrip_leaf_amended [exItem "I1" ["B", "A"]] ["I1"] "B" leafCats
    (by decide) (by decide) (by decide)
    (Or.inl (by decide))

/-- The batch-remove loop as a map plus a count of the genuinely modified
items. -/
lemma brc_loop_eq (categoriesToRemove itemIds : List String) :
    ∀ items : List Item,
      brc_loop categoriesToRemove itemIds items =
        (items.map (brcItemUpdate categoriesToRemove itemIds),
         items.countP (brcModified categoriesToRemove itemIds)) := by
  intro items
  induction items with
  | nil => rfl
  | cons item rest ih =>
    simp only [brc_loop, ih, List.map_cons, List.countP_cons]
    by_cases hsel : item.id ∈ itemIds
    · rw [if_pos hsel]
      by_cases hempty :
        item.categoryIds.filter (fun cid => decide (cid ∉ categoriesToRemove)) = []
      · have hb : brcModified categoriesToRemove itemIds item = false := by
          simp only [brcModified]
          rw [hempty]
          simp
        rw [if_pos hempty, hb]
        simp only [brcItemUpdate, if_pos hsel, if_pos hempty]
        simp
      · by_cases hlen : (item.categoryIds.filter
          (fun cid => decide (cid ∉ categoriesToRemove))).length ≠ item.categoryIds.length
        · have hb : brcModified categoriesToRemove itemIds item = true := by
            simp only [brcModified, Bool.and_eq_true, decide_eq_true_eq]
            exact ⟨⟨hsel, hempty⟩, hlen⟩
          rw [if_neg hempty, if_pos hlen, hb]
          simp only [brcItemUpdate, if_pos hsel, if_neg hempty]
          simp
        · have hb : brcModified categoriesToRemove itemIds item = false := by
            simp only [brcModified]
            simp only [hlen]
            simp
          rw [if_neg hempty, if_neg hlen, hb]
          simp only [brcItemUpdate, if_pos hsel, if_neg hempty]
          simp
    · have hb : brcModified categoriesToRemove itemIds item = false := by
        simp [brcModified, hsel]
      rw [if_neg hsel, hb]
      simp only [brcItemUpdate, if_neg hsel]
      simp

/-- C4: confirmed — `batch_remove_categories` rejects an empty id list or an
empty category list up front with the items unchanged; otherwise it strips
the given categories from each selected item, skipping (returning unmodified)
any selected item that would be left with zero categories, and it reports the
no-effect error, with the items unchanged, exactly when no item in the whole
batch actually shrank. -/
theorem C4_batch_remove_categories_spec (items : List Item) (itemIds categoryIds : List String) :
    (itemIds = [] →
      batch_remove_categories items itemIds categoryIds = (items, some "未提供条目ID"))
  ∧ (itemIds ≠ [] → categoryIds = [] →
      batch_remove_categories items itemIds categoryIds = (items, some "未提供分类ID"))
  ∧ (itemIds ≠ [] → categoryIds ≠ [] →
      ((¬ ∃ it ∈ items, it.id ∈ itemIds ∧
          it.categoryIds.filter (fun cid => decide (cid ∉ categoryIds)) ≠ [] ∧
          (it.categoryIds.filter (fun cid => decide (cid ∉ categoryIds))).length ≠
            it.categoryIds.length) →
        batch_remove_categories items itemIds categoryIds =
          (items, some "没有条目被修改，可能是分类不存在或所有条目都只有一个分类"))
      ∧ ((∃ it ∈ items, it.id ∈ itemIds ∧
          it.categoryIds.filter (fun cid => decide (cid ∉ categoryIds)) ≠ [] ∧
          (it.categoryIds.filter (fun cid => decide (cid ∉ categoryIds))).length ≠
            it.categoryIds.length) →
        batch_remove_categories items itemIds categoryIds =
          (items.map (brcItemUpdate categoryIds itemIds), none))) := by
  refine ⟨?_, ?_, ?_⟩
  · intro h
    rw [batch_remove_categories, if_pos h]
  · intro h1 h2
    rw [batch_remove_categories, if_neg h1, if_pos h2]
  · intro h1 h2
    have hloop := brc_loop_eq categoryIds itemIds items
    constructor
    · intro hno
      have hcount : (brc_loop categoryIds itemIds items).2 = 0 := by
        rw [hloop]
        rw [List.countP_eq_zero]
        intro a hmem ha
        simp only [brcModified, Bool.and_eq_true, decide_eq_true_eq] at ha
        exact hno ⟨a, hmem, ha.1.1, ha.1.2, ha.2⟩
      rw [batch_remove_categories, if_neg h1, if_neg h2]
      simp [hcount]
    · intro hyes
      have hcount : (brc_loop categoryIds itemIds items).2 ≠ 0 := by
        rw [hloop, Ne, List.countP_eq_zero]
        intro hall
        obtain ⟨a, hmem, hasel, hne, hlen⟩ := hyes
        refine absurd ?_ (hall a hmem)
        simp only [brcModified, Bool.and_eq_true, decide_eq_true_eq]
        exact ⟨⟨hasel, hne⟩, hlen⟩
      rw [batch_remove_categories, if_neg h1, if_neg h2]
      simp only [hcount, if_false]
      rw [show (brc_loop categoryIds itemIds items).1 =
        items.map (brcItemUpdate categoryIds itemIds) from congrArg Prod.fst hloop]

/-- A scan that matches no item completes with the items unchanged and the
found flag down. -/
lemma rcfi_loop_not_found (itemId categoryId : String) :
    ∀ items : List Item, (∀ it ∈ items, it.id ≠ itemId) →
      rcfi_loop itemId categoryId items = .ok (items, false) := by
  intro items
  induction items with
  | nil => intro _; rfl
  | cons a rest ih =>
    intro h
    have ha : a.id ≠ itemId := h a (List.mem_cons_self a rest)
    have hrest := ih (fun it hit => h it (List.mem_cons_of_mem a hit))
    simp only [rcfi_loop, if_neg ha, hrest]

/-- A scan whose first matching item lacks the category aborts with the
invalid-category message. -/
lemma rcfi_loop_invalid (itemId categoryId : String) :
    ∀ items : List Item, ∀ it : Item,
      items.find? (fun i => decide (i.id = itemId)) = some it →
      categoryId ∉ it.categoryIds →
      rcfi_loop itemId categoryId items = .error ("条目不包含分类ID: " ++ categoryId) := by
  intro items
  induction items with
  | nil => intro it hfind _; simp at hfind
  | cons a rest ih =>
    intro it hfind hnc
    by_cases ha : a.id = itemId
    · have hfa : (a :: rest).find? (fun i => decide (i.id = itemId)) = some a :=
        List.find?_cons_of_pos rest (by simpa using ha)
      rw [hfa] at hfind
      obtain rfl : a = it := by injection hfind
      simp only [rcfi_loop, if_pos ha, if_pos hnc]
    · have hfind' : rest.find? (fun i => decide (i.id = itemId)) = some it := by
        rwa [List.find?_cons_of_neg rest (by simpa using ha)] at hfind
      have hrest := ih it hfind' hnc
      simp only [rcfi_loop, if_neg ha, hrest]

/-- A scan whose first matching item holds only the targeted category aborts
with the last-category message. -/
lemma rcfi_loop_last (itemId categoryId : String) :
    ∀ items : List Item, ∀ it : Item,
      items.find? (fun i => decide (i.id = itemId)) = some it →
      categoryId ∈ it.categoryIds →
      it.categoryIds.filter (fun cid => decide (cid ≠ categoryId)) = [] →
      rcfi_loop itemId categoryId items =
        .error "条目至少需要一个分类，无法删除最后一个分类" := by
  intro items
  induction items with
  | nil => intro it hfind _ _; simp at hfind
  | cons a rest ih =>
    intro it hfind hmem hempty
    by_cases ha : a.id = itemId
    · have hfa : (a :: rest).find? (fun i => decide (i.id = itemId)) = some a :=
        List.find?_cons_of_pos rest (by simpa using ha)
      rw [hfa] at hfind
      obtain rfl : a = it := by injection hfind
      simp only [rcfi_loop, if_pos ha, if_neg (not_not_intro hmem), if_pos hempty]
    · have hfind' : rest.find? (fun i => decide (i.id = itemId)) = some it := by
        rwa [List.find?_cons_of_neg rest (by simpa using ha)] at hfind
      have hrest := ih it hfind' hmem hempty
      simp only [rcfi_loop, if_neg ha, hrest]

/-- C5: confirmed — `remove_category_from_item` fails with the not-found
message when no item has the given id, with the invalid-category message when
the targeted item does not hold the category, and with the last-category
message when removal would empty the item's categories (in particular on an
item with exactly one category); in every error case the returned item list
is exactly the input. -/
theorem C5_remove_category_error_paths (items : List Item) (itemId categoryId : String) :
    ((remove_category_from_item items itemId categoryId).2 ≠ none →
      (remove_category_from_item items itemId categoryId).1 = items)
  ∧ ((∀ it ∈ items, it.id ≠ itemId) →
      remove_category_from_item items itemId categoryId =
        (items, some ("条目不存在: " ++ itemId)))
  ∧ (∀ it : Item, items.find? (fun i => decide (i.id = itemId)) = some it →
      categoryId ∉ it.categoryIds →
      remove_category_from_item items itemId categoryId =
        (items, some ("条目不包含分类ID: " ++ categoryId)))
  ∧ (∀ it : Item, items.find? (fun i => decide (i.id = itemId)) = some it →
      categoryId ∈ it.categoryIds →
      it.categoryIds.filter (fun cid => decide (cid ≠ categoryId)) = [] →
      remove_category_from_item items itemId categoryId =
        (items, some "条目至少需要一个分类，无法删除最后一个分类")) := by
  refine ⟨?_, ?_, ?_, ?_⟩
  · unfold remove_category_from_item
    rcases hrec : rcfi_loop itemId categoryId items with m | ⟨tl, fd⟩
    · intro _; rfl
    · rcases fd with _ | _
      · intro _; rfl
      · intro hne; exact absurd rfl hne
  · intro hno
    unfold remove_category_from_item
    rw [rcfi_loop_not_found itemId categoryId items hno]
    rfl
  · intro it hfind hnc
    unfold remove_category_from_item
    rw [rcfi_loop_invalid itemId categoryId items it hfind hnc]
  · intro it hfind hmem hempty
    unfold remove_category_from_item
    rw [rcfi_loop_last itemId categoryId items it hfind hmem hempty]

/-- The category stage of `filter_items` as a `List.filter`. -/
lemma filter_by_categories_eq (categories : List Category) (selected : List String) :
    ∀ items : List Item,
      filter_by_categories categories selected items =
        items.filter (fun item => !item.categoryIds.isEmpty &&
          matches_all_filters categories selected item.categoryIds) := by
  intro items
  induction items with
  | nil => rfl
  | cons item rest ih =>
    by_cases hemp : item.categoryIds.isEmpty
    · simp [filter_by_categories, hemp, ih]
    · by_cases hmatch : matches_all_filters categories selected item.categoryIds
      · simp [filter_by_categories, hemp, hmatch, ih]
      · simp [filter_by_categories, hemp, hmatch, ih]

/-- C6: confirmed — with a non-empty filter set (and no search query) the
category filter keeps an item iff the item has some category and, for every
filter id, at least one of the item's own category ids lies in the filter id
or its descendants (AND across filters, OR within each filter's subtree); an
item with no categories never matches. -/
theorem C6_category_filter (items : List Item) (categories : List Category)
    (selected : List String) (hacyc : acyclicWalks categories = true)
    (hne : selected ≠ []) :
    ∀ item : Item, item ∈ filter_items items categories selected none ↔
      (item ∈ items ∧ item.categoryIds ≠ [] ∧
        ∀ f ∈ selected, ∃ cid ∈ item.categoryIds,
          cid = f ∨ cid ∈ get_descendant_ids f categories) := by
  intro item
  have hsel : selected.isEmpty = false := by
    simpa [List.isEmpty_iff] using hne
  show item ∈ (if selected.isEmpty then items
    else filter_by_categories categories selected items) ↔ _
  rw [hsel]
  simp only [Bool.false_eq_true, if_false]
  rw [filter_by_categories_eq, List.mem_filter]
  simp only [Bool.and_eq_true, Bool.not_eq_true', List.isEmpty_eq_false,
    matches_all_filters, List.all_eq_true, List.any_eq_true, decide_eq_true_eq,
    List.mem_cons, and_assoc]

/-- C6 witness: the spec §8 filter scenario — tree `A → B → C`, filtering on
`B`, the item tagged `[C]` (the theorem instantiated at it; hypotheses
discharged by evaluation). -/
theorem C6_category_filter_witness :
    exItem "I1" ["C"] ∈
        filter_items [exItem "I1" ["C"], exItem "I2" ["A"]] exCats ["B"] none ↔
      (exItem "I1" ["C"] ∈ [exItem "I1" ["C"], exItem "I2" ["A"]] ∧
        (exItem "I1" ["C"]).categoryIds ≠ [] ∧
        ∀ f ∈ ["B"], ∃ cid ∈ (exItem "I1" ["C"]).categoryIds,
          cid = f ∨ cid ∈ get_descendant_ids f exCats) :=
  C6_category_filter [exItem "I1" ["C"], exItem "I2" ["A"]] exCats ["B"]
    (by decide) (by decide) (exItem "I1" ["C"])

/-- Under a well-formed exclude id (absent or non-empty), the scan's skip
test is exactly "this is the excluded item". -/
lemma is_excluded_iff {excludeId : Option String} (hex : excludeId ≠ some "")
    (item : Item) : is_excluded excludeId item = true ↔ excludeId = some item.id := by
  cases excludeId with
  | none => simp [is_excluded]
  | some e =>
    have he : e ≠ "" := fun h => hex (by rw [h])
    simp only [is_excluded, Bool.and_eq_true, decide_eq_true_eq, Option.some.injEq]
    constructor
    · rintro ⟨_, h⟩; exact h.symm
    · intro h; exact ⟨he, h.symm⟩

/-- The scan succeeds exactly when every item is either skipped or free of a
collision. -/
lemma validate_scan_eq_none (itemName itemType : String) (excludeId : Option String) :
    ∀ items : List Item,
      (validate_scan itemName itemType excludeId items = none ↔
        ∀ item ∈ items, is_excluded excludeId item = true ∨
          ¬ name_collides itemType itemName item) := by
  intro items
  induction items with
  | nil => simp [validate_scan]
  | cons a rest ih =>
    by_cases hexc : is_excluded excludeId a = true
    · rw [show validate_scan itemName itemType excludeId (a :: rest) =
          validate_scan itemName itemType excludeId rest by
            simp only [validate_scan, if_pos hexc], ih, List.forall_mem_cons]
      exact ⟨fun h => ⟨Or.inl hexc, h⟩, fun h => h.2⟩
    · by_cases htype : itemType = "text" ∨ itemType = "url"
      · by_cases hcond : (a.type = "text" ∨ a.type = "url") ∧ a.content = some itemName
        · have hcol : name_collides itemType itemName a := by
            unfold name_collides; rwa [if_pos htype]
          rw [show validate_scan itemName itemType excludeId (a :: rest) =
              some ("已存在同名条目：" ++ itemName ++ "，请修改名称。") by
                simp only [validate_scan, if_neg hexc, if_pos htype, if_pos hcond]]
          simp only [List.forall_mem_cons]
          constructor
          · intro h; exact Option.noConfusion h
          · rintro ⟨ha, _⟩
            rcases ha with hx | hx
            · exact absurd hx hexc
            · exact absurd hcol hx
        · have hcol : ¬ name_collides itemType itemName a := by
            intro hc; unfold name_collides at hc; rw [if_pos htype] at hc
            exact hcond hc
          rw [show validate_scan itemName itemType excludeId (a :: rest) =
              validate_scan itemName itemType excludeId rest by
                simp only [validate_scan, if_neg hexc, if_pos htype, if_neg hcond],
            ih, List.forall_mem_cons]
          exact ⟨fun h => ⟨Or.inr hcol, h⟩, fun h => h.2⟩
      · by_cases hcond : a.type = itemType ∧ a.fileName = some itemName
        · have hcol : name_collides itemType itemName a := by
            unfold name_collides; rwa [if_neg htype]
          rw [show validate_scan itemName itemType excludeId (a :: rest) =
              some ("已存在同名文件：" ++ itemName ++ "，请修改文件名或选择其他文件。") by
                simp only [validate_scan, if_neg hexc, if_neg htype, if_pos hcond]]
          simp only [List.forall_mem_cons]
          constructor
          · intro h; exact Option.noConfusion h
          · rintro ⟨ha, _⟩
            rcases ha with hx | hx
            · exact absurd hx hexc
            · exact absurd hcol hx
        · have hcol : ¬ name_collides itemType itemName a := by
            intro hc; unfold name_collides at hc; rw [if_neg htype] at hc
            exact hcond hc
          rw [show validate_scan itemName itemType excludeId (a :: rest) =
              validate_scan itemName itemType excludeId rest by
                simp only [validate_scan, if_neg hexc, if_neg htype, if_neg hcond],
            ih, List.forall_mem_cons]
          exact ⟨fun h => ⟨Or.inr hcol, h⟩, fun h => h.2⟩

/-- The scan produces either no error or the one message of its type branch. -/
lemma validate_scan_values (itemName itemType : String) (excludeId : Option String) :
    ∀ items : List Item,
      validate_scan itemName itemType excludeId items = none ∨
      validate_scan itemName itemType excludeId items =
        some (if itemType = "text" ∨ itemType = "url" then
            "已存在同名条目：" ++ itemName ++ "，请修改名称。"
          else "已存在同名文件：" ++ itemName ++ "，请修改文件名或选择其他文件。") := by
  intro items
  induction items with
  | nil => exact Or.inl rfl
  | cons a rest ih =>
    by_cases hexc : is_excluded excludeId a = true
    · simpa only [validate_scan, if_pos hexc] using ih
    · by_cases htype : itemType = "text" ∨ itemType = "url"
      · by_cases hcond : (a.type = "text" ∨ a.type = "url") ∧ a.content = some itemName
        · refine Or.inr ?_
          simp only [validate_scan, if_neg hexc, if_pos htype, if_pos hcond]
        · simpa only [validate_scan, if_neg hexc, if_pos htype, if_neg hcond] using ih
      · by_cases hcond : a.type = itemType ∧ a.fileName = some itemName
        · refine Or.inr ?_
          simp only [validate_scan, if_neg hexc, if_neg htype, if_pos hcond]
        · simpa only [validate_scan, if_neg hexc, if_neg htype, if_neg hcond] using ih

/-- C7: confirmed — `validate_item_name` rejects a blank name outright;
otherwise it succeeds iff every item is either the excluded one or free of a
type-aware collision (content identity against any `text`/`url` item for the
`text`/`url` types, file-name identity against the same type otherwise), and
when it fails it reports the one duplicate message of its type branch. -/
theorem C7_validate_name (items : List Item) (itemName itemType : String)
    (excludeId : Option String) (hex : excludeId ≠ some "") :
    (isBlankName itemName = true →
      validate_item_name items itemName itemType excludeId = some "名称不能为空")
  ∧ (isBlankName itemName ≠ true →
      ((validate_item_name items itemName itemType excludeId = none ↔
          ∀ item ∈ items, excludeId = some item.id ∨
            ¬ name_collides itemType itemName item)
        ∧ (validate_item_name items itemName itemType excludeId = none ∨
           validate_item_name items itemName itemType excludeId =
             some (if itemType = "text" ∨ itemType = "url" then
                 "已存在同名条目：" ++ itemName ++ "，请修改名称。"
               else "已存在同名文件：" ++ itemName ++ "，请修改文件名或选择其他文件。")))) := by
  constructor
  · intro hb
    rw [validate_item_name, if_pos hb]
  · intro hnb
    rw [validate_item_name, if_neg hnb]
    constructor
    · rw [validate_scan_eq_none]
      simp only [is_excluded_iff hex]
    · exact validate_scan_values itemName itemType excludeId items

/-- C7 witness: the spec §8 duplicate-file scenario — validating
`"report.pdf"` of type `file` against an existing `file` item with that file
name fails with the duplicate-file message, and the same call excluding that
item's id succeeds (the theorem applied at both inputs). -/
theorem C7_validate_name_witness :
    validate_item_name [fileItem] "report.pdf" "file" none =
      some "已存在同名文件：report.pdf，请修改文件名或选择其他文件。" ∧
    validate_item_name [fileItem] "report.pdf" "file" (some "i1") = none := by
  constructor
  · have h := (C7_validate_name [fileItem] "report.pdf" "file" none (by decide)).2
      (by decide)
    rcases h.2 with hnone | hsome
    · exact absurd (h.1.mp hnone fileItem (by decide)) (by decide)
    · simpa using hsome
  · exact ((C7_validate_name [fileItem] "report.pdf" "file" (some "i1")
      (by decide)).2 (by decide)).1.mpr (by decide)

/-- A completed ancestor walk is stable under extra fuel. -/
lemma ancestorTail_mono (categories : List Category) :
    ∀ (fuel : Nat) {fuel' : Nat} {cur : String} {t : List String}, fuel ≤ fuel' →
      ancestorTail categories fuel cur = some t →
      ancestorTail categories fuel' cur = some t := by
  intro fuel
  induction fuel with
  | zero =>
    intro fuel' cur t _ h
    exact absurd h (by simp [ancestorTail])
  | succ n ih =>
    intro fuel' cur t hle h
    obtain ⟨m, rfl⟩ : ∃ m, fuel' = m + 1 := ⟨fuel' - 1, by omega⟩
    simp only [ancestorTail] at h ⊢
    rcases hf : categories.find? (fun c => c.id = cur) with _ | c <;>
      simp only [hf] at h ⊢
    · exact h
    · rcases hp : c.parentId with _ | p <;> simp only [hp] at h ⊢
      · exact h
      · by_cases hpe : p = ""
        · rw [if_pos hpe] at h ⊢; exact h
        · rw [if_neg hpe] at h ⊢
          rcases hat : ancestorTail categories n p with _ | t₂ <;>
            simp only [hat] at h
          · exact absurd h (by simp)
          · simp only [ih (by omega : n ≤ m) hat]
            exact h

/-- Every id on a completed ancestor walk starts its own completed walk, and
that walk stays inside the original chain (the tail from `y` is a suffix of
the tail from `cur`). -/
lemma ancestorTail_closed (categories : List Category) :
    ∀ (fuel : Nat) (cur : String) (t : List String),
      ancestorTail categories fuel cur = some t →
      ∀ y ∈ t, ∃ t', ancestorTail categories fuel y = some t' ∧
        ∀ z ∈ y :: t', z ∈ cur :: t := by
  intro fuel
  induction fuel with
  | zero =>
    intro cur t h
    exact absurd h (by simp [ancestorTail])
  | succ n ih =>
    intro cur t h
    simp only [ancestorTail] at h
    rcases hf : categories.find? (fun c => c.id = cur) with _ | c <;> simp only [hf] at h
    · injection h with h'
      subst h'
      intro y hy
      exact absurd hy (List.not_mem_nil y)
    · rcases hp : c.parentId with _ | p <;> simp only [hp] at h
      · injection h with h'
        subst h'
        intro y hy
        exact absurd hy (List.not_mem_nil y)
      · by_cases hpe : p = ""
        · rw [if_pos hpe] at h
          injection h with h'
          subst h'
          intro y hy
          exact absurd hy (List.not_mem_nil y)
        · rw [if_neg hpe] at h
          rcases hat : ancestorTail categories n p with _ | t₂ <;> simp only [hat] at h
          · exact absurd h (by simp)
          · injection h with h'
            subst h'
            intro y hy
            rcases List.mem_cons.mp hy with rfl | hyt
            · exact ⟨t₂, ancestorTail_mono categories n (by omega) hat,
                fun z hz => List.mem_cons_of_mem cur hz⟩
            · obtain ⟨t', ht', hsub⟩ := ih p t₂ hat y hyt
              exact ⟨t', ancestorTail_mono categories n (by omega) ht',
                fun z hz => List.mem_cons_of_mem cur (hsub z hz)⟩

/-- An ancestor chain is closed under taking ancestor chains of its
members. -/
lemma get_ancestor_ids_closed (categoryId : String) (categories : List Category) :
    ∀ y ∈ get_ancestor_ids categoryId categories,
      ∀ z ∈ get_ancestor_ids y categories, z ∈ get_ancestor_ids categoryId categories := by
  intro y hy z hz
  rcases hat : ancestorTail categories (categories.length + 1) categoryId with _ | t
  · rw [get_ancestor_ids, hat] at hy
    simp only [Option.getD_none, List.mem_singleton] at hy
    subst hy
    exact hz
  · rw [get_ancestor_ids, hat] at hy
    simp only [Option.getD_some] at hy
    rcases List.mem_cons.mp hy with rfl | hyt
    · exact hz
    · obtain ⟨t', ht', hsub⟩ :=
        ancestorTail_closed categories (categories.length + 1) categoryId t hat y hyt
      rw [get_ancestor_ids, ht'] at hz
      simp only [Option.getD_some] at hz
      rw [get_ancestor_ids, hat]
      simp only [Option.getD_some]
      exact hsub z hz

/-- C8: confirmed — for an acyclic category list, `expand_category_ids` is
idempotent on every id set (ids missing from the list included): expanding
an already-expanded set adds nothing, as a set of ids. -/
theorem C8_expand_idempotent (S : List String) (categories : List Category)
    (hacyc : acyclicWalks categories = true) :
    (expand_category_ids (expand_category_ids S categories) categories).toFinset =
      (expand_category_ids S categories).toFinset := by
  apply Finset.ext
  intro z
  simp only [List.mem_toFinset, expand_category_ids, List.mem_flatMap]
  constructor
  · rintro ⟨y, ⟨x, hx, hyx⟩, hz⟩
    exact ⟨x, hx, get_ancestor_ids_closed x categories y hyx z hz⟩
  · rintro ⟨x, hx, hz⟩
    exact ⟨x, ⟨x, hx, self_mem_get_ancestor_ids x categories⟩, hz⟩

/-- C8 witness: the theorem at the spec §8 tree and an id set holding a leaf
and an id absent from the category list. -/
theorem C8_expand_idempotent_witness :
    (expand_category_ids (expand_category_ids ["C", "zz"] exCats) exCats).toFinset =
      (expand_category_ids ["C", "zz"] exCats).toFinset :=
  C8_expand_idempotent ["C", "zz"] exCats (by decide)

end TagStore
